import Mathlib

set_option maxRecDepth 100000

/-!
Verification of the wealth backend's credential vault, key rotation,
backfill planner, currency normalizer, timeline aggregation and sync
orchestration, shallowly embedded from the Python source
(`backend/core/encryption.py`, `backend/core/user_encryption.py`,
`backend/accounts/views.py`, `backend/portfolio/views.py`,
`backend/exchange_rates/models.py`, `backend/exchange_rates/services.py`,
`backend/brokers/integrations/fints_integration.py`).
-/

/-- Modelled from the spec: the `cryptography.fernet` library is an external
collaborator ("symmetric authenticated encryption" producing "ciphertext +
authentication tag").  A Fernet key is modelled as an opaque identifier. -/
structure FernetKey where
  keyId : Nat
deriving DecidableEq, Repr

/-- Modelled from the spec: the byte strings handed to Fernet.  The vault only
ever encrypts either a JSON-serialized credential dictionary
(`json.dumps(credentials).encode()`) or a raw Fernet key (`encrypt_user_key`);
both serializations are injective, so plaintext bytes are modelled
symbolically. A credential dictionary is modelled as an association list of
string keys to string values. -/
inductive PlainBytes where
  | json (creds : List (String × String))
  | rawKey (k : FernetKey)
deriving DecidableEq, Repr

/-- Modelled from the spec: a Fernet token is "ciphertext + authentication
tag".  The HMAC-SHA256 tag over (key, ciphertext) is modelled as an ideal
(collision-free) MAC, i.e. the pair of the signing key and the signed bytes. -/
structure FernetToken where
  body : PlainBytes
  tag : FernetKey × PlainBytes
deriving DecidableEq, Repr

/-- Errors raised by the vault: `cryptography.fernet.InvalidToken` on a failed
tag check, and a JSON decode error when the decrypted bytes are not a
credential dictionary. -/
inductive VaultError where
  | invalidToken
  | jsonError
deriving DecidableEq, Repr

/-- Modelled from the spec: the ideal MAC computed by Fernet over the
ciphertext under the given key. -/
def fernetMac (k : FernetKey) (m : PlainBytes) : FernetKey × PlainBytes :=
  (k, m)

/-- Modelled from the spec: `Fernet(key).encrypt(data)` — produce the
ciphertext together with its authentication tag. -/
def fernetEncrypt (k : FernetKey) (m : PlainBytes) : FernetToken :=
  { body := m, tag := fernetMac k m }

/-- Modelled from the spec: `Fernet(key).decrypt(token)` — recompute the tag
over the token body under the supplied key and compare it with the stored
tag; on mismatch raise `InvalidToken`.  The plaintext is never compared, and
no key is compared in plaintext: success is decided by the tag check alone. -/
def fernetDecrypt (k : FernetKey) (t : FernetToken) : Except VaultError PlainBytes :=
  if fernetMac k t.body = t.tag then .ok t.body else .error .invalidToken

namespace Encryption

/-- `backend/core/encryption.py` `encrypt_credentials(data)`: encrypt the
credentials dictionary under the server master key obtained from
`get_encryption_key()` (passed here as `masterKey`). -/
def encrypt_credentials (masterKey : FernetKey) (data : List (String × String)) :
    FernetToken :=
  fernetEncrypt masterKey (.json data)

/-- `backend/core/encryption.py` `decrypt_credentials(encrypted_data)`:
empty/missing input (`if not encrypted_data`) returns the empty dictionary;
otherwise Fernet-decrypt under the master key and JSON-parse the result. -/
def decrypt_credentials (masterKey : FernetKey) (encrypted_data : Option FernetToken) :
    Except VaultError (List (String × String)) :=
  match encrypted_data with
  | none => .ok []
  | some t =>
    match fernetDecrypt masterKey t with
    | .ok (.json c) => .ok c
    | .ok (.rawKey _) => .error .jsonError
    | .error e => .error e

end Encryption

namespace UserEncryption

/-- `backend/core/user_encryption.py` `encrypt_user_key(user_key, kek)`:
wrap the user's key bytes under the KEK with Fernet.  In the source the user
key is plain bytes; here those bytes are a `PlainBytes` value (a freshly
generated key is `.rawKey k`). -/
def encrypt_user_key (user_key : PlainBytes) (kek : FernetKey) : FernetToken :=
  fernetEncrypt kek user_key

/-- `backend/core/user_encryption.py` `decrypt_user_key(encrypted_user_key,
kek)`: Fernet-decrypt the wrapped user key under the KEK; the source performs
no plaintext key comparison, the only check is Fernet's tag verification. -/
def decrypt_user_key (encrypted_user_key : FernetToken) (kek : FernetKey) :
    Except VaultError PlainBytes :=
  fernetDecrypt kek encrypted_user_key

/-- `backend/core/user_encryption.py` `encrypt_credentials(credentials,
user_key)`. -/
def encrypt_credentials (credentials : List (String × String)) (user_key : FernetKey) :
    FernetToken :=
  fernetEncrypt user_key (.json credentials)

/-- `backend/core/user_encryption.py` `decrypt_credentials(encrypted_creds,
user_key)`: `if not encrypted_creds: return` the empty dictionary, otherwise
Fernet-decrypt and JSON-parse. -/
def decrypt_credentials (encrypted_creds : Option FernetToken) (user_key : FernetKey) :
    Except VaultError (List (String × String)) :=
  match encrypted_creds with
  | none => .ok []
  | some t =>
    match fernetDecrypt user_key t with
    | .ok (.json c) => .ok c
    | .ok (.rawKey _) => .error .jsonError
    | .error e => .error e

end UserEncryption

/-- C1: decrypting a user key wrapped under `kek` with any other KEK fails
with `InvalidToken` via the authentication-tag check — the tag recomputed
under the wrong KEK never matches the stored tag — and never succeeds;
with the matching KEK it recovers exactly the wrapped key; and the success
or failure of `decrypt_user_key` is decided solely by the tag comparison on
the ciphertext, not by any plaintext comparison of keys. -/
theorem C1_wrong_kek_fails (user_key : PlainBytes) (kek kek' : FernetKey)
    (hne : kek' ≠ kek) :
    UserEncryption.decrypt_user_key (UserEncryption.encrypt_user_key user_key kek) kek'
      = .error .invalidToken
    ∧ UserEncryption.decrypt_user_key (UserEncryption.encrypt_user_key user_key kek) kek
      = .ok user_key
    ∧ ∀ t k, (∃ e, UserEncryption.decrypt_user_key t k = .error e)
        ↔ fernetMac k t.body ≠ t.tag := by
  refine ⟨?_, ?_, ?_⟩
  · simp only [UserEncryption.decrypt_user_key, UserEncryption.encrypt_user_key,
      fernetDecrypt, fernetEncrypt, fernetMac]
    simp [Prod.ext_iff, hne]
  · simp [UserEncryption.decrypt_user_key, UserEncryption.encrypt_user_key,
      fernetDecrypt, fernetEncrypt]
  · intro t k
    unfold UserEncryption.decrypt_user_key fernetDecrypt
    by_cases h : fernetMac k t.body = t.tag <;> simp [h]

/-- C1 witness: at concrete distinct KEKs the wrap/unwrap mismatch fails with
`InvalidToken`. -/
theorem C1_wrong_kek_fails_witness :
    UserEncryption.decrypt_user_key
      (UserEncryption.encrypt_user_key (.rawKey ⟨7⟩) ⟨0⟩) ⟨1⟩ = .error .invalidToken :=
  (C1_wrong_kek_fails (.rawKey ⟨7⟩) ⟨0⟩ ⟨1⟩ (by decide)).1

/-- C2: decrypting the blob produced by encrypting a credentials dictionary
returns exactly that dictionary, in both regimes: the legacy server-master-key
mode and the per-user-key mode, for every dictionary and every key. -/
theorem C2_roundtrip (c : List (String × String)) (masterKey user_key : FernetKey) :
    Encryption.decrypt_credentials masterKey
      (some (Encryption.encrypt_credentials masterKey c)) = .ok c
    ∧ UserEncryption.decrypt_credentials
      (some (UserEncryption.encrypt_credentials c user_key)) user_key = .ok c := by
  constructor
  · simp [Encryption.decrypt_credentials, Encryption.encrypt_credentials,
      fernetDecrypt, fernetEncrypt]
  · simp [UserEncryption.decrypt_credentials, UserEncryption.encrypt_credentials,
      fernetDecrypt, fernetEncrypt]

/-- C10: both decryption entry points map empty/missing ciphertext to the
empty dictionary without any decryption attempt, and any decryption failure
implies the ciphertext input was non-empty. -/
theorem C10_empty_ciphertext (masterKey user_key : FernetKey) :
    Encryption.decrypt_credentials masterKey none = .ok []
    ∧ UserEncryption.decrypt_credentials none user_key = .ok []
    ∧ (∀ (blob : Option FernetToken) (e : VaultError),
        Encryption.decrypt_credentials masterKey blob = .error e → blob ≠ none)
    ∧ (∀ (blob : Option FernetToken) (e : VaultError),
        UserEncryption.decrypt_credentials blob user_key = .error e → blob ≠ none) := by
  refine ⟨rfl, rfl, ?_, ?_⟩
  · intro blob e h
    cases blob with
    | none => simp [Encryption.decrypt_credentials] at h
    | some t => simp
  · intro blob e h
    cases blob with
    | none => simp [UserEncryption.decrypt_credentials] at h
    | some t => simp

/-- C10 witness: at the server key 0 and user key 1, empty input decrypts to
the empty dictionary, and a concretely failing non-empty blob is indeed not
the empty input. -/
theorem C10_empty_ciphertext_witness :
    Encryption.decrypt_credentials ⟨0⟩ none = .ok []
    ∧ (some (fernetEncrypt ⟨2⟩ (.json [])) : Option FernetToken) ≠ none := by
  have h := C10_empty_ciphertext ⟨0⟩ ⟨1⟩
  refine ⟨h.1, h.2.2.1 (some (fernetEncrypt ⟨2⟩ (.json []))) .invalidToken ?_⟩
  simp [Encryption.decrypt_credentials, fernetDecrypt, fernetEncrypt, fernetMac]

namespace Accounts

/-- The KEK-relevant fields of `accounts/models.py` `UserProfile`:
`encrypted_user_key` (nullable binary), the auth/KEK salts and hash,
`key_version` (default 1) and the `encryption_migrated` flag. -/
structure UserProfile where
  encryption_migrated : Bool
  auth_hash : String
  auth_salt : String
  kek_salt : String
  encrypted_user_key : Option FernetToken
  key_version : Nat
deriving DecidableEq, Repr

/-- The credential-relevant fields of `portfolio/models.py`
`FinancialAccount`: the display name and the nullable encrypted credential
blob. -/
structure FinancialAccount where
  name : String
  encrypted_credentials : Option FernetToken
deriving DecidableEq, Repr

/-- Request body of `KEKPasswordChangeView.post`.  The two KEKs arrive
base64-encoded and are decoded with `pad_kek_for_fernet`; the decoded keys
are modelled directly, `none` standing for an absent field. -/
structure KEKChangeRequest where
  old_auth_hash : String
  new_auth_hash : String
  old_kek : Option FernetKey
  new_kek : Option FernetKey
  new_auth_salt : String
  new_kek_salt : String
deriving DecidableEq, Repr

/-- Responses of `KEKPasswordChangeView.post`: a 400 with an error string,
or the success payload carrying the re-wrapped user key. -/
inductive KEKChangeResponse where
  | badRequest (error : String)
  | success (encrypted_user_key : FernetToken)
deriving DecidableEq, Repr

/-- `accounts/views.py` `KEKPasswordChangeView.post`: reject non-migrated
users; require all six fields; verify the old auth hash with
`secrets.compare_digest`; unwrap the stored user key with the old KEK,
rewrap it with the new KEK; store the new hash, salts and wrapped key and
increment `key_version`.  The view never touches the accounts, which are
threaded through unchanged to make that explicit. -/
def kekPasswordChange (profile : UserProfile) (accounts : List FinancialAccount)
    (req : KEKChangeRequest) :
    KEKChangeResponse × UserProfile × List FinancialAccount :=
  if profile.encryption_migrated = false then
    (.badRequest "User not migrated to KEK encryption", profile, accounts)
  else
    match req.old_kek, req.new_kek with
    | some old_kek, some new_kek =>
      if req.old_auth_hash = "" ∨ req.new_auth_hash = "" ∨
          req.new_auth_salt = "" ∨ req.new_kek_salt = "" then
        (.badRequest "All fields required", profile, accounts)
      else if req.old_auth_hash ≠ profile.auth_hash then
        (.badRequest "Invalid current password", profile, accounts)
      else
        match profile.encrypted_user_key with
        | none => (.badRequest "Failed to re-encrypt user key", profile, accounts)
        | some tok =>
          match UserEncryption.decrypt_user_key tok old_kek with
          | .error _ => (.badRequest "Failed to re-encrypt user key", profile, accounts)
          | .ok user_key =>
            let new_encrypted_user_key := UserEncryption.encrypt_user_key user_key new_kek
            (.success new_encrypted_user_key,
             { profile with
                auth_hash := req.new_auth_hash
                auth_salt := req.new_auth_salt
                kek_salt := req.new_kek_salt
                encrypted_user_key := some new_encrypted_user_key
                key_version := profile.key_version + 1 },
             accounts)
    | _, _ => (.badRequest "All fields required", profile, accounts)

/-- Request body of `SetupEncryptionView.post` (decoded KEK, `none` when the
field is absent). -/
structure SetupRequest where
  kek : Option FernetKey
  auth_hash : String
  auth_salt : String
  kek_salt : String
deriving DecidableEq, Repr

/-- Responses of `SetupEncryptionView.post`: a 400 with an error string, or
the success payload with the wrapped user key, the migrated count, and the
collected per-account failures (account name with the caught error). -/
inductive SetupResponse where
  | badRequest (error : String)
  | success (encrypted_user_key : FernetToken) (accounts_migrated : Nat)
      (accounts_failed : List (String × VaultError))
deriving DecidableEq, Repr

/-- The migration loop of `SetupEncryptionView.post`: for each account with
a non-empty credential blob, decrypt with the legacy server key and
re-encrypt with the new user key; a failing account is appended to
`accounts_failed` and left unchanged, and the loop continues. -/
def migrateAccounts (masterKey user_key : FernetKey) :
    List FinancialAccount → List FinancialAccount × Nat × List (String × VaultError)
  | [] => ([], 0, [])
  | a :: rest =>
    match a.encrypted_credentials with
    | none =>
      let (rest', n, fails) := migrateAccounts masterKey user_key rest
      (a :: rest', n, fails)
    | some blob =>
      match Encryption.decrypt_credentials masterKey (some blob) with
      | .ok creds =>
        let (rest', n, fails) := migrateAccounts masterKey user_key rest
        let newBlob := some (UserEncryption.encrypt_credentials creds user_key)
        ({ a with encrypted_credentials := newBlob } :: rest', n + 1, fails)
      | .error e =>
        let (rest', n, fails) := migrateAccounts masterKey user_key rest
        (a :: rest', n, (a.name, e) :: fails)

/-- `accounts/views.py` `SetupEncryptionView.post`: reject already-migrated
users; require `kek`, `auth_hash`, `auth_salt`, `kek_salt`; wrap the freshly
generated `user_key` (passed in, the source draws it from
`generate_user_key()`) under the KEK; re-encrypt every account's credentials,
collecting per-account failures; then persist the wrapped key, hash, salts
and set `encryption_migrated`. -/
def setupEncryption (masterKey : FernetKey) (profile : UserProfile)
    (accounts : List FinancialAccount) (req : SetupRequest) (user_key : FernetKey) :
    SetupResponse × UserProfile × List FinancialAccount :=
  if profile.encryption_migrated then
    (.badRequest "User already migrated", profile, accounts)
  else
    match req.kek with
    | none =>
      (.badRequest "kek, auth_hash, auth_salt, and kek_salt required", profile, accounts)
    | some kek =>
      if req.auth_hash = "" ∨ req.auth_salt = "" ∨ req.kek_salt = "" then
        (.badRequest "kek, auth_hash, auth_salt, and kek_salt required", profile, accounts)
      else
        let encrypted_user_key := UserEncryption.encrypt_user_key (.rawKey user_key) kek
        let res := migrateAccounts masterKey user_key accounts
        (.success encrypted_user_key res.2.1 res.2.2,
         { profile with
            encrypted_user_key := some encrypted_user_key
            auth_hash := req.auth_hash
            auth_salt := req.auth_salt
            kek_salt := req.kek_salt
            encryption_migrated := true },
         res.1)

/-- Spec-side description of what the migration loop does to one account,
independently of every other account. -/
def migrateOne (masterKey user_key : FernetKey) (a : FinancialAccount) :
    FinancialAccount :=
  match a.encrypted_credentials with
  | none => a
  | some blob =>
    match Encryption.decrypt_credentials masterKey (some blob) with
    | .ok creds =>
      let newBlob := some (UserEncryption.encrypt_credentials creds user_key)
      { a with encrypted_credentials := newBlob }
    | .error _ => a

/-- Whether one account's blob is present and decrypts under the legacy
server key. -/
def decryptsOk (masterKey : FernetKey) (a : FinancialAccount) : Bool :=
  match a.encrypted_credentials with
  | none => false
  | some blob =>
    match Encryption.decrypt_credentials masterKey (some blob) with
    | .ok _ => true
    | .error _ => false

/-- The failure entry one account contributes, if any. -/
def failureOf (masterKey : FernetKey) (a : FinancialAccount) :
    Option (String × VaultError) :=
  match a.encrypted_credentials with
  | none => none
  | some blob =>
    match Encryption.decrypt_credentials masterKey (some blob) with
    | .ok _ => none
    | .error e => some (a.name, e)

theorem migrateAccounts_spec (masterKey user_key : FernetKey)
    (accounts : List FinancialAccount) :
    migrateAccounts masterKey user_key accounts =
      (accounts.map (migrateOne masterKey user_key),
       (accounts.filter (decryptsOk masterKey)).length,
       accounts.filterMap (failureOf masterKey)) := by
  induction accounts with
  | nil => rfl
  | cons a rest ih =>
    obtain ⟨nm, blob⟩ := a
    simp only [migrateAccounts, List.map_cons, List.filter_cons, List.filterMap_cons,
      migrateOne, decryptsOk, failureOf]
    cases blob with
    | none => simp [ih]
    | some b =>
      cases hdec : Encryption.decrypt_credentials masterKey (some b) with
      | ok creds => simp [hdec, ih]
      | error e => simp [hdec, ih]

end Accounts

/-- C3: for a migrated user presenting the correct old KEK (and the matching
old auth hash, with all request fields present), the password-change view
unwraps the stored user key with the old KEK and rewraps it with the new KEK:
the new stored `encrypted_user_key` decrypts under the new KEK to exactly the
user key that the old blob held under the old KEK, `key_version` grows by
exactly 1, and the accounts list — in particular every encrypted credential
blob — is returned unchanged. -/
theorem C3_kek_rotation (profile : Accounts.UserProfile)
    (accounts : List Accounts.FinancialAccount) (req : Accounts.KEKChangeRequest)
    (old_kek new_kek : FernetKey) (tok : FernetToken) (user_key : PlainBytes)
    (hmig : profile.encryption_migrated = true)
    (hok : req.old_kek = some old_kek) (hnk : req.new_kek = some new_kek)
    (hoh : req.old_auth_hash = profile.auth_hash)
    (hoh' : req.old_auth_hash ≠ "") (hnh : req.new_auth_hash ≠ "")
    (hns : req.new_auth_salt ≠ "") (hks : req.new_kek_salt ≠ "")
    (htok : profile.encrypted_user_key = some tok)
    (hunwrap : UserEncryption.decrypt_user_key tok old_kek = .ok user_key) :
    (Accounts.kekPasswordChange profile accounts req).2.1.encrypted_user_key =
        some (UserEncryption.encrypt_user_key user_key new_kek)
    ∧ UserEncryption.decrypt_user_key
        (UserEncryption.encrypt_user_key user_key new_kek) new_kek = .ok user_key
    ∧ (Accounts.kekPasswordChange profile accounts req).2.1.key_version =
        profile.key_version + 1
    ∧ (Accounts.kekPasswordChange profile accounts req).2.2 = accounts
    ∧ (Accounts.kekPasswordChange profile accounts req).1 =
        .success (UserEncryption.encrypt_user_key user_key new_kek) := by
  have hbody : Accounts.kekPasswordChange profile accounts req =
      (.success (UserEncryption.encrypt_user_key user_key new_kek),
       { profile with
          auth_hash := req.new_auth_hash
          auth_salt := req.new_auth_salt
          kek_salt := req.new_kek_salt
          encrypted_user_key := some (UserEncryption.encrypt_user_key user_key new_kek)
          key_version := profile.key_version + 1 },
       accounts) := by
    unfold Accounts.kekPasswordChange
    rw [hmig, hok, hnk, htok]
    simp only [Bool.true_eq_false, if_false]
    rw [if_neg (by simp [hoh', hnh, hns, hks]), if_neg (by simp [hoh]), hunwrap]
  refine ⟨?_, ?_, ?_, ?_, ?_⟩
  · rw [hbody]
  · simp [UserEncryption.decrypt_user_key, UserEncryption.encrypt_user_key,
      fernetDecrypt, fernetEncrypt]
  · rw [hbody]
  · rw [hbody]
  · rw [hbody]

/-- C3 witness: a concrete migrated profile whose user key ⟨5⟩ is wrapped
under KEK ⟨1⟩; rotating to KEK ⟨2⟩ yields a blob that unwraps to ⟨5⟩ and bumps
`key_version` from 4 to 5. -/
theorem C3_kek_rotation_witness :
    (Accounts.kekPasswordChange
      ⟨true, "h", "s", "t", some (UserEncryption.encrypt_user_key (.rawKey ⟨5⟩) ⟨1⟩), 4⟩
      [⟨"acct", none⟩]
      ⟨"h", "h2", some ⟨1⟩, some ⟨2⟩, "s2", "t2"⟩).2.1.key_version = 4 + 1 :=
  (C3_kek_rotation
    ⟨true, "h", "s", "t", some (UserEncryption.encrypt_user_key (.rawKey ⟨5⟩) ⟨1⟩), 4⟩
    [⟨"acct", none⟩] ⟨"h", "h2", some ⟨1⟩, some ⟨2⟩, "s2", "t2"⟩
    ⟨1⟩ ⟨2⟩ (UserEncryption.encrypt_user_key (.rawKey ⟨5⟩) ⟨1⟩) (.rawKey ⟨5⟩)
    rfl rfl rfl rfl (by decide) (by decide) (by decide) (by decide) rfl
    (by simp [UserEncryption.decrypt_user_key, UserEncryption.encrypt_user_key,
      fernetDecrypt, fernetEncrypt])).2.2.1

/-- C4: (a) the per-user encryption setup is rejected with "User already
migrated" and changes nothing whenever the user's `encryption_migrated` flag
is already set; (b) otherwise each account is migrated independently of every
other account's outcome — the final account list is a per-account map, the
migrated count is the number of accounts whose blob decrypts under the legacy
key, and the failures are collected per account and returned inside the
success response (the function is total: failures are data, never
exceptions), so one account's decryption failure cannot stop the rest. -/
theorem C4_setup_failures_collected (masterKey : FernetKey)
    (profile : Accounts.UserProfile) (accounts : List Accounts.FinancialAccount)
    (req : Accounts.SetupRequest) (user_key : FernetKey) :
    (profile.encryption_migrated = true →
      Accounts.setupEncryption masterKey profile accounts req user_key =
        (.badRequest "User already migrated", profile, accounts))
    ∧ ∀ kek, profile.encryption_migrated = false → req.kek = some kek →
        req.auth_hash ≠ "" → req.auth_salt ≠ "" → req.kek_salt ≠ "" →
        Accounts.setupEncryption masterKey profile accounts req user_key =
          (.success (UserEncryption.encrypt_user_key (.rawKey user_key) kek)
             (accounts.filter (Accounts.decryptsOk masterKey)).length
             (accounts.filterMap (Accounts.failureOf masterKey)),
           { profile with
              encrypted_user_key :=
                some (UserEncryption.encrypt_user_key (.rawKey user_key) kek)
              auth_hash := req.auth_hash
              auth_salt := req.auth_salt
              kek_salt := req.kek_salt
              encryption_migrated := true },
           accounts.map (Accounts.migrateOne masterKey user_key)) := by
  constructor
  · intro hmig
    unfold Accounts.setupEncryption
    rw [hmig]
    simp
  · intro kek hmig hkek hah has hks
    unfold Accounts.setupEncryption
    rw [hmig, hkek]
    simp only [Bool.false_eq_true, if_false]
    rw [if_neg (by simp [hah, has, hks])]
    rw [Accounts.migrateAccounts_spec]

/-- C4 witness: a non-migrated user with three accounts, the middle one
holding a blob encrypted under the wrong key: setup succeeds, migrates the
two good accounts, and returns the one failure in the response. -/
theorem C4_setup_failures_collected_witness :
    Accounts.setupEncryption ⟨0⟩ ⟨false, "", "", "", none, 1⟩
      [⟨"good1", some (Encryption.encrypt_credentials ⟨0⟩ [("user", "x")])⟩,
       ⟨"bad", some (fernetEncrypt ⟨9⟩ (.json [("user", "y")]))⟩,
       ⟨"good2", some (Encryption.encrypt_credentials ⟨0⟩ [])⟩]
      ⟨some ⟨2⟩, "h", "s", "t"⟩ ⟨1⟩ =
      (.success (UserEncryption.encrypt_user_key (.rawKey ⟨1⟩) ⟨2⟩) 2
         [("bad", .invalidToken)],
       ⟨true, "h", "s", "t",
        some (UserEncryption.encrypt_user_key (.rawKey ⟨1⟩) ⟨2⟩), 1⟩,
       [⟨"good1", some (UserEncryption.encrypt_credentials [("user", "x")] ⟨1⟩)⟩,
        ⟨"bad", some (fernetEncrypt ⟨9⟩ (.json [("user", "y")]))⟩,
        ⟨"good2", some (UserEncryption.encrypt_credentials [] ⟨1⟩)⟩]) := by
  have h := (C4_setup_failures_collected ⟨0⟩ ⟨false, "", "", "", none, 1⟩
    [⟨"good1", some (Encryption.encrypt_credentials ⟨0⟩ [("user", "x")])⟩,
     ⟨"bad", some (fernetEncrypt ⟨9⟩ (.json [("user", "y")]))⟩,
     ⟨"good2", some (Encryption.encrypt_credentials ⟨0⟩ [])⟩]
    ⟨some ⟨2⟩, "h", "s", "t"⟩ ⟨1⟩).2 ⟨2⟩ rfl rfl
    (by decide) (by decide) (by decide)
  rw [h]
  decide

namespace Portfolio

/-- `wealth/settings.py` defaults read by `_backfill_historical` via
`getattr(django_settings, ..., 365)`. -/
def HISTORICAL_BACKFILL_MAX_LOOKBACK_DAYS : Nat := 365

def HISTORICAL_BACKFILL_BUFFER_DAYS : Nat := 5

def HISTORICAL_BACKFILL_SKIP_IF_RECENT_DAYS : Nat := 2

/-- The Python iteration `range(max_lookback, skip_if_recent_days, -1)` =
[365, 364, ..., 3]: the descending list of days-ago values scanned by
`AccountSyncView._backfill_historical`. -/
def scanDaysAgo : List Nat :=
  (List.range' (HISTORICAL_BACKFILL_SKIP_IF_RECENT_DAYS + 1)
    (HISTORICAL_BACKFILL_MAX_LOOKBACK_DAYS - HISTORICAL_BACKFILL_SKIP_IF_RECENT_DAYS)).reverse

/-- The gap scan of `_backfill_historical`: dates are day ordinals (`Int`),
`existing` the set of snapshot dates of the account; the first `days_ago` in
the descending scan whose date `end_date - days_ago` has no snapshot gives
the oldest gap. -/
def findOldestGap (today : Int) (existing : List Int) : Option Int :=
  (scanDaysAgo.find? (fun d : Nat => !(existing.contains (today - (d : Int))))).map
    (fun d : Nat => today - (d : Int))

/-- The request-window computation of `_backfill_historical`: start from the
oldest gap minus the buffer, clamped to `end_date - (max_lookback + buffer)`;
`none` when no gap was found. -/
def backfillWindow (today : Int) (existing : List Int) : Option (Int × Int) :=
  match findOldestGap today existing with
  | none => none
  | some oldest_gap =>
    let start_date := oldest_gap - (HISTORICAL_BACKFILL_BUFFER_DAYS : Int)
    let max_start := today -
      ((HISTORICAL_BACKFILL_MAX_LOOKBACK_DAYS + HISTORICAL_BACKFILL_BUFFER_DAYS : Nat) : Int)
    some (if start_date < max_start then max_start else start_date, today)

/-- The persistence loop of `_backfill_historical`: count the returned
historical dates not already covered, adding each new date to the covered
set as it is persisted. -/
def countNewSnapshots (existing : List Int) : List Int → Nat
  | [] => 0
  | d :: rest =>
    if existing.contains d then countNewSnapshots existing rest
    else countNewSnapshots (d :: existing) rest + 1

/-- `AccountSyncView._backfill_historical` for an integration whose
historical fetch requires an extra request: compute the window from the gap
scan (no gap ⇒ return 0 and skip the fetch), fetch, and count the newly
persisted snapshots. -/
def backfillHistorical (today : Int) (existing : List Int)
    (fetch : Int → Int → List Int) : Nat :=
  match backfillWindow today existing with
  | none => 0
  | some (s, e) => countNewSnapshots existing (fetch s e)

/-- All 366 snapshot dates from `today` back to 365 days ago except the one
`missing` days ago. -/
def snapshotsExceptDay (today : Int) (missing : Nat) : List Int :=
  (List.range 366).filterMap
    (fun d => if d = missing then none else some (today - (d : Int)))

theorem mem_scanDaysAgo (d : Nat) : d ∈ scanDaysAgo ↔ 3 ≤ d ∧ d ≤ 365 := by
  simp only [scanDaysAgo, HISTORICAL_BACKFILL_SKIP_IF_RECENT_DAYS,
    HISTORICAL_BACKFILL_MAX_LOOKBACK_DAYS, List.mem_reverse, List.mem_range'_1]
  omega

theorem scanDaysAgo_pairwise : scanDaysAgo.Pairwise (· > ·) := by
  simp only [scanDaysAgo, List.pairwise_reverse]
  exact List.pairwise_lt_range' ..

theorem find?_descending_spec (l : List Nat) (p : Nat → Bool)
    (hl : l.Pairwise (· > ·)) (a : Nat) (h : l.find? p = some a) :
    a ∈ l ∧ p a = true ∧ ∀ b ∈ l, b > a → p b = false := by
  induction l with
  | nil => simp at h
  | cons x xs ih =>
    rw [List.find?_cons] at h
    rcases List.pairwise_cons.mp hl with ⟨hx, hxs⟩
    by_cases hpx : p x
    · rw [hpx] at h
      obtain rfl : x = a := by injection h
      refine ⟨List.mem_cons_self .., hpx, ?_⟩
      intro b hb hba
      rcases List.mem_cons.mp hb with rfl | hb
      · omega
      · exact absurd (hx b hb) (by omega)
    · rw [Bool.not_eq_true] at hpx
      rw [hpx] at h
      obtain ⟨ha, hpa, hrest⟩ := ih hxs h
      refine ⟨List.mem_cons_of_mem _ ha, hpa, ?_⟩
      intro b hb hba
      rcases List.mem_cons.mp hb with rfl | hb
      · exact hpx
      · exact hrest b hb hba

end Portfolio

namespace Portfolio

theorem find?_descending_complete (l : List Nat) (p : Nat → Bool)
    (hl : l.Pairwise (· > ·)) (a : Nat) (ha : a ∈ l) (hpa : p a = true)
    (hmax : ∀ b ∈ l, b > a → p b = false) : l.find? p = some a := by
  induction l with
  | nil => simp at ha
  | cons x xs ih =>
    rw [List.find?_cons]
    rcases List.pairwise_cons.mp hl with ⟨hx, hxs⟩
    rcases List.mem_cons.mp ha with rfl | ha
    · rw [hpa]
    · have hxa : x > a := hx a ha
      have hpx : p x = false := hmax x (List.mem_cons_self ..) hxa
      rw [hpx]
      exact ih hxs ha fun b hb hba => hmax b (List.mem_cons_of_mem _ hb) hba

theorem mem_snapshotsExceptDay (t : Int) (m : Nat) (x : Int) :
    x ∈ snapshotsExceptDay t m ↔ ∃ d : Nat, d < 366 ∧ d ≠ m ∧ x = t - (d : Int) := by
  simp only [snapshotsExceptDay, List.mem_filterMap, List.mem_range]
  constructor
  · rintro ⟨d, hd, hsome⟩
    by_cases h : d = m
    · simp [h] at hsome
    · rw [if_neg h] at hsome
      exact ⟨d, hd, h, (Option.some_inj.mp hsome).symm⟩
  · rintro ⟨d, hd, hne, rfl⟩
    exact ⟨d, hd, by rw [if_neg hne]⟩

theorem gapPred_iff (today : Int) (existing : List Int) (d : Nat) :
    (!(existing.contains (today - (d : Int)))) = true ↔ (today - (d : Int)) ∉ existing := by
  simp [List.elem_iff]

theorem findOldestGap_eq_none_iff (today : Int) (existing : List Int) :
    findOldestGap today existing = none ↔
      ∀ d : Nat, 3 ≤ d → d ≤ 365 → (today - (d : Int)) ∈ existing := by
  simp only [findOldestGap, Option.map_eq_none', List.find?_eq_none]
  constructor
  · intro h d h3 h365
    have := h d ((mem_scanDaysAgo d).mpr ⟨h3, h365⟩)
    simpa [List.elem_iff] using this
  · intro h d hd
    rcases (mem_scanDaysAgo d).mp hd with ⟨h3, h365⟩
    simp [List.elem_iff, h d h3 h365]

theorem findOldestGap_eq_some (today : Int) (existing : List Int) (d : Nat)
    (h3 : 3 ≤ d) (h365 : d ≤ 365) (hmiss : (today - (d : Int)) ∉ existing)
    (habove : ∀ d' : Nat, d < d' → d' ≤ 365 → (today - (d' : Int)) ∈ existing) :
    findOldestGap today existing = some (today - (d : Int)) := by
  unfold findOldestGap
  rw [find?_descending_complete scanDaysAgo _ scanDaysAgo_pairwise d
    ((mem_scanDaysAgo d).mpr ⟨h3, h365⟩) ((gapPred_iff today existing d).mpr hmiss)
    (fun b hb hba => by
      rcases (mem_scanDaysAgo b).mp hb with ⟨hb3, hb365⟩
      simp [List.elem_iff, habove b hba hb365])]
  rfl

theorem findOldestGap_spec (today : Int) (existing : List Int) (g : Int)
    (h : findOldestGap today existing = some g) :
    ∃ d : Nat, 3 ≤ d ∧ d ≤ 365 ∧ g = today - (d : Int) ∧ g ∉ existing
      ∧ ∀ d' : Nat, d < d' → d' ≤ 365 → (today - (d' : Int)) ∈ existing := by
  unfold findOldestGap at h
  rcases Option.map_eq_some'.mp h with ⟨d, hfind, rfl⟩
  obtain ⟨hmem, hpd, hrest⟩ :=
    find?_descending_spec scanDaysAgo _ scanDaysAgo_pairwise d hfind
  rcases (mem_scanDaysAgo d).mp hmem with ⟨h3, h365⟩
  refine ⟨d, h3, h365, rfl, (gapPred_iff today existing d).mp hpd, ?_⟩
  intro d' hlt h365'
  have := hrest d' ((mem_scanDaysAgo d').mpr ⟨by omega, h365'⟩) hlt
  simpa [List.elem_iff] using this

end Portfolio

/-- C5 counterexample: with snapshots on every one of the last 365 days
except 2 days ago, the planner finds no gap and returns zero.  The scan
`range(365, 2, -1)` stops at 3 days ago, so the missing date 2 days ago —
which the claim places inside the scanned range — is never selected. -/
theorem C5_counterexample :
    Portfolio.findOldestGap 1000 (Portfolio.snapshotsExceptDay 1000 2) = none
    ∧ ((1000 : Int) - 2) ∉ Portfolio.snapshotsExceptDay 1000 2
    ∧ Portfolio.backfillHistorical 1000 (Portfolio.snapshotsExceptDay 1000 2)
        (fun s e => [s, e]) = 0 := by
  have hnone : Portfolio.findOldestGap 1000 (Portfolio.snapshotsExceptDay 1000 2) = none := by
    rw [Portfolio.findOldestGap_eq_none_iff]
    intro d h3 h365
    rw [Portfolio.mem_snapshotsExceptDay]
    exact ⟨d, by omega, by omega, rfl⟩
  refine ⟨hnone, ?_, ?_⟩
  · rw [Portfolio.mem_snapshotsExceptDay]
    rintro ⟨d, hd, hne, heq⟩
    have : (d : Int) = 2 := by omega
    exact hne (by exact_mod_cast this)
  · unfold Portfolio.backfillHistorical Portfolio.backfillWindow
    rw [hnone]

/-- C5 (amended): for an integration whose historical fetch requires an
extra request, the planner scans backward day-by-day from 365 days ago down
to 3 days ago (the most recent 2 days are skipped, `range(365, 2, -1)`), and
(a) it finds no gap exactly when every date in that range has a snapshot, in
which case backfill is skipped and returns zero rather than an error;
(b) any gap it reports is the oldest missing date in the scanned range —
every scanned date strictly older is covered — and the requested window is
exactly [gap - 5 days, today], whose total span never exceeds 370 days
(the clamp to today - 370 can never tighten it further);
(c) in particular, with snapshots on every day except day 40, it selects
day 40 and requests [day40 - 5, today]. -/
theorem C5_backfill_planner (today : Int) (existing : List Int) :
    (Portfolio.findOldestGap today existing = none ↔
      ∀ d : Nat, 3 ≤ d → d ≤ 365 → (today - (d : Int)) ∈ existing)
    ∧ (Portfolio.findOldestGap today existing = none →
        ∀ fetch, Portfolio.backfillHistorical today existing fetch = 0)
    ∧ (∀ g, Portfolio.findOldestGap today existing = some g →
        ∃ d : Nat, 3 ≤ d ∧ d ≤ 365 ∧ g = today - (d : Int) ∧ g ∉ existing
          ∧ (∀ d' : Nat, d < d' → d' ≤ 365 → (today - (d' : Int)) ∈ existing)
          ∧ Portfolio.backfillWindow today existing = some (g - 5, today)
          ∧ today - (g - 5) ≤ 370)
    ∧ Portfolio.findOldestGap 1000 (Portfolio.snapshotsExceptDay 1000 40)
        = some (1000 - 40)
    ∧ Portfolio.backfillWindow 1000 (Portfolio.snapshotsExceptDay 1000 40)
        = some (1000 - 45, 1000) := by
  have hgap40 : Portfolio.findOldestGap 1000 (Portfolio.snapshotsExceptDay 1000 40)
      = some (1000 - (40 : Nat) : Int) := by
    apply Portfolio.findOldestGap_eq_some 1000 _ 40 (by omega) (by omega)
    · rw [Portfolio.mem_snapshotsExceptDay]
      rintro ⟨d, hd, hne, heq⟩
      have : (d : Int) = 40 := by omega
      exact hne (by exact_mod_cast this)
    · intro d' hlt h365'
      rw [Portfolio.mem_snapshotsExceptDay]
      exact ⟨d', by omega, by omega, rfl⟩
  refine ⟨Portfolio.findOldestGap_eq_none_iff today existing, ?_, ?_, ?_, ?_⟩
  · intro hnone fetch
    unfold Portfolio.backfillHistorical Portfolio.backfillWindow
    rw [hnone]
  · intro g hg
    obtain ⟨d, h3, h365, rfl, hmiss, habove⟩ := Portfolio.findOldestGap_spec today existing g hg
    refine ⟨d, h3, h365, rfl, hmiss, habove, ?_, by omega⟩
    unfold Portfolio.backfillWindow
    rw [hg]
    have : ¬ (today - (d : Int) - (Portfolio.HISTORICAL_BACKFILL_BUFFER_DAYS : Int)
        < today - ((Portfolio.HISTORICAL_BACKFILL_MAX_LOOKBACK_DAYS
          + Portfolio.HISTORICAL_BACKFILL_BUFFER_DAYS : Nat) : Int)) := by
      simp only [Portfolio.HISTORICAL_BACKFILL_BUFFER_DAYS,
        Portfolio.HISTORICAL_BACKFILL_MAX_LOOKBACK_DAYS]
      push_cast
      omega
    simp only [this, if_false]
    norm_num [Portfolio.HISTORICAL_BACKFILL_BUFFER_DAYS]
  · exact_mod_cast hgap40
  · unfold Portfolio.backfillWindow
    rw [hgap40]
    norm_num [Portfolio.HISTORICAL_BACKFILL_BUFFER_DAYS,
      Portfolio.HISTORICAL_BACKFILL_MAX_LOOKBACK_DAYS]

/-- C5 witness: the amended theorem applied at the day-40 scenario: the gap
hypothesis is discharged there and yields the window [day40 - 5, today]. -/
theorem C5_backfill_planner_witness :
    Portfolio.backfillWindow 1000 (Portfolio.snapshotsExceptDay 1000 40)
      = some (955, 1000)
    ∧ Portfolio.backfillHistorical 1000
        (Portfolio.snapshotsExceptDay 1000 2) (fun s e => [s, e]) = 0 := by
  have h := C5_backfill_planner 1000 (Portfolio.snapshotsExceptDay 1000 40)
  have h2 := C5_backfill_planner 1000 (Portfolio.snapshotsExceptDay 1000 2)
  constructor
  · have := h.2.2.2.2
    norm_num at this
    exact this
  · apply h2.2.1
    rw [h2.1]
    intro d hd h365
    rw [Portfolio.mem_snapshotsExceptDay]
    exact ⟨d, by omega, by omega, rfl⟩

namespace ExchangeRates

/-- `exchange_rates/models.py` `ExchangeRate`: a stored rate row — currency
pair, decimal rate (modelled as an exact rational) and rate date (day
ordinal).  The table's `unique_together` on (from, to, date) enters the
theorems as a uniqueness hypothesis. -/
structure ExchangeRate where
  from_currency : String
  to_currency : String
  rate : Rat
  rate_date : Int
deriving DecidableEq, Repr

/-- The `filter(from_currency=.., to_currency=..)` pair condition. -/
def matchesPair (f t : String) (e : ExchangeRate) : Bool :=
  e.from_currency == f && e.to_currency == t

/-- The exact-date query `filter(..., rate_date=date).first()` over the
stored rows. -/
def firstMatch (rates : List ExchangeRate) (f t : String) (d : Int) :
    Option ExchangeRate :=
  rates.find? (fun e => matchesPair f t e && e.rate_date == d)

/-- One step of `order_by('-rate_date').first()`: keep the row with the
larger date. -/
def pickLatest (acc : Option ExchangeRate) (e : ExchangeRate) : Option ExchangeRate :=
  match acc with
  | none => some e
  | some b => if b.rate_date < e.rate_date then some e else some b

/-- The fallback query `filter(..., rate_date__lte=date)
.order_by('-rate_date').first()`: the stored row for the pair with the
largest date on or before `d`. -/
def bestOnOrBefore (rates : List ExchangeRate) (f t : String) (d : Int) :
    Option ExchangeRate :=
  (rates.filter (fun e => matchesPair f t e && e.rate_date ≤ d)).foldl pickLatest none

/-- `ExchangeRate.get_rate(from_currency, to_currency, date)`: rate 1 for
equal currencies before any lookup; otherwise the exact-date rate, else the
most recent on-or-before rate, else the reciprocal of the most recent
on-or-before reverse-pair rate, else `None`.  (`Decimal('1.0') / rate` is
modelled as exact rational division.) -/
def get_rate (rates : List ExchangeRate) (from_currency to_currency : String)
    (d : Int) : Option Rat :=
  if from_currency = to_currency then some 1
  else
    match firstMatch rates from_currency to_currency d with
    | some rate => some rate.rate
    | none =>
      match bestOnOrBefore rates from_currency to_currency d with
      | some rate => some rate.rate
      | none =>
        match bestOnOrBefore rates to_currency from_currency d with
        | some inverse => some (1 / inverse.rate)
        | none => none

/-- `exchange_rates/services.py` `ExchangeRateService.get_rate`: coalesce a
missing rate to `Decimal('1.0')`.  The `fetch_rates_for_date` retry hits the
external Frankfurter API; it is modelled as contributing no new rows, so the
second lookup equals the first. -/
def service_get_rate (rates : List ExchangeRate) (f t : String) (d : Int) : Rat :=
  (get_rate rates f t d).getD 1

/-- The base-currency conversion applied to a persisted snapshot in
`AccountSyncView._backfill_historical`: convert only when the currencies
differ and the service rate is truthy and not `1.0`; otherwise the snapshot's
`balance_base_currency` stays `None` (never zero). -/
def convertToBase (rates : List ExchangeRate) (bal : Rat)
    (currency base_currency : String) (d : Int) : Option Rat :=
  if currency ≠ base_currency then
    let rate := service_get_rate rates currency base_currency d
    if rate ≠ 0 ∧ rate ≠ 1 then some (bal * rate) else none
  else some bal

theorem find?_unique {α : Type} (l : List α) (p : α → Bool) (a : α)
    (ha : a ∈ l) (hpa : p a = true) (huniq : ∀ b ∈ l, p b = true → b = a) :
    l.find? p = some a := by
  induction l with
  | nil => simp at ha
  | cons x xs ih =>
    rw [List.find?_cons]
    by_cases hpx : p x
    · rw [hpx]
      rw [huniq x (List.mem_cons_self ..) hpx]
    · rw [Bool.not_eq_true] at hpx
      rw [hpx]
      rcases List.mem_cons.mp ha with rfl | ha
      · rw [hpa] at hpx
        cases hpx
      · exact ih ha fun b hb hpb => huniq b (List.mem_cons_of_mem _ hb) hpb

theorem foldl_pickLatest_stay (b : ExchangeRate) (l : List ExchangeRate)
    (hmax : ∀ e ∈ l, e.rate_date ≤ b.rate_date) :
    l.foldl pickLatest (some b) = some b := by
  induction l with
  | nil => rfl
  | cons x xs ih =>
    have hx : x.rate_date ≤ b.rate_date := hmax x (List.mem_cons_self ..)
    simp only [List.foldl_cons, pickLatest]
    rw [if_neg (by omega)]
    exact ih fun e he => hmax e (List.mem_cons_of_mem _ he)

theorem foldl_pickLatest_reaches (b : ExchangeRate) (l : List ExchangeRate)
    (hb : b ∈ l)
    (hmax : ∀ e ∈ l, e.rate_date ≤ b.rate_date ∧ (e.rate_date = b.rate_date → e = b)) :
    ∀ acc : Option ExchangeRate,
      (acc = none ∨ ∃ c, acc = some c ∧ c.rate_date < b.rate_date) →
      l.foldl pickLatest acc = some b := by
  induction l with
  | nil => simp at hb
  | cons x xs ih =>
    intro acc hacc
    have hmax' : ∀ e ∈ xs, e.rate_date ≤ b.rate_date ∧ (e.rate_date = b.rate_date → e = b) :=
      fun e he => hmax e (List.mem_cons_of_mem _ he)
    by_cases hxb : x = b
    · subst hxb
      have hstep : pickLatest acc x = some x := by
        rcases hacc with rfl | ⟨c, rfl, hc⟩
        · rfl
        · simp only [pickLatest]
          rw [if_pos hc]
      rw [List.foldl_cons, hstep]
      exact foldl_pickLatest_stay x xs fun e he => (hmax' e he).1
    · have hxlt : x.rate_date < b.rate_date := by
        rcases hmax x (List.mem_cons_self ..) with ⟨hle, heq⟩
        rcases lt_or_eq_of_le hle with h | h
        · exact h
        · exact absurd (heq h) hxb
      have hbxs : b ∈ xs := by
        rcases List.mem_cons.mp hb with rfl | h
        · exact absurd rfl hxb
        · exact h
      rw [List.foldl_cons]
      apply ih hbxs hmax'
      rcases hacc with rfl | ⟨c, rfl, hc⟩
      · exact Or.inr ⟨x, rfl, hxlt⟩
      · simp only [pickLatest]
        by_cases h : c.rate_date < x.rate_date
        · rw [if_pos h]
          exact Or.inr ⟨x, rfl, hxlt⟩
        · rw [if_neg h]
          exact Or.inr ⟨c, rfl, hc⟩

theorem bestOnOrBefore_eq_some (rates : List ExchangeRate) (f t : String) (d : Int)
    (b : ExchangeRate) (hb : b ∈ rates) (hm : matchesPair f t b = true)
    (hle : b.rate_date ≤ d)
    (hmax : ∀ e ∈ rates, matchesPair f t e = true → e.rate_date ≤ d →
      e.rate_date ≤ b.rate_date ∧ (e.rate_date = b.rate_date → e = b)) :
    bestOnOrBefore rates f t d = some b := by
  unfold bestOnOrBefore
  apply foldl_pickLatest_reaches b _ ?_ ?_ none (Or.inl rfl)
  · rw [List.mem_filter]
    exact ⟨hb, by simp [hm, hle]⟩
  · intro e he
    rw [List.mem_filter] at he
    rcases he with ⟨he, hcond⟩
    rw [Bool.and_eq_true, decide_eq_true_eq] at hcond
    exact hmax e he hcond.1 hcond.2

theorem foldl_pickLatest_ne_none (l : List ExchangeRate) (c : ExchangeRate) :
    l.foldl pickLatest (some c) ≠ none := by
  induction l generalizing c with
  | nil => simp
  | cons x xs ih =>
    rw [List.foldl_cons]
    simp only [pickLatest]
    by_cases h : c.rate_date < x.rate_date
    · rw [if_pos h]; exact ih x
    · rw [if_neg h]; exact ih c

theorem bestOnOrBefore_eq_none_iff (rates : List ExchangeRate) (f t : String)
    (d : Int) :
    bestOnOrBefore rates f t d = none ↔
      ∀ e ∈ rates, matchesPair f t e = true → ¬(e.rate_date ≤ d) := by
  unfold bestOnOrBefore
  cases hfil : rates.filter (fun e => matchesPair f t e && e.rate_date ≤ d) with
  | nil =>
    simp only [List.foldl_nil, true_iff]
    intro e he hm hled
    have : e ∈ rates.filter (fun e => matchesPair f t e && e.rate_date ≤ d) := by
      rw [List.mem_filter]
      exact ⟨he, by simp [hm, hled]⟩
    rw [hfil] at this
    simp at this
  | cons x xs =>
    rw [List.foldl_cons]
    have hx : x ∈ rates.filter (fun e => matchesPair f t e && e.rate_date ≤ d) := by
      rw [hfil]; exact List.mem_cons_self ..
    rw [List.mem_filter, Bool.and_eq_true, decide_eq_true_eq] at hx
    constructor
    · intro h
      exact absurd h (foldl_pickLatest_ne_none xs x)
    · intro h
      exact absurd hx.2.2 (h x hx.1 hx.2.1)

end ExchangeRates

/-- C6: the rate lookup returns 1 with no stored-rate lookup when the
currencies are equal; otherwise, under the table's (from, to, date)
uniqueness, it returns the exact-date rate when one exists, else the most
recent on-or-before rate, else the reciprocal of the most recent
on-or-before reverse-pair rate; and when none of these exists the lookup is
`None` and the snapshot conversion leaves the base-currency value `None` —
unconverted, never zero.  With a USD→EUR rate stored only for day 1, a day-3
lookup returns day 1's rate. -/
theorem C6_rate_fallback (rates : List ExchangeRates.ExchangeRate)
    (f t : String) (d : Int) :
    ExchangeRates.get_rate rates f f d = some 1
    ∧ (∀ e, f ≠ t → e ∈ rates → ExchangeRates.matchesPair f t e = true →
        e.rate_date = d →
        (∀ e' ∈ rates, ExchangeRates.matchesPair f t e' = true →
          e'.rate_date = d → e' = e) →
        ExchangeRates.get_rate rates f t d = some e.rate)
    ∧ (∀ b, f ≠ t →
        (∀ e ∈ rates, ExchangeRates.matchesPair f t e = true → e.rate_date ≠ d) →
        b ∈ rates → ExchangeRates.matchesPair f t b = true → b.rate_date ≤ d →
        (∀ e ∈ rates, ExchangeRates.matchesPair f t e = true → e.rate_date ≤ d →
          e.rate_date ≤ b.rate_date ∧ (e.rate_date = b.rate_date → e = b)) →
        ExchangeRates.get_rate rates f t d = some b.rate)
    ∧ (∀ b, f ≠ t →
        (∀ e ∈ rates, ExchangeRates.matchesPair f t e = true → ¬(e.rate_date ≤ d)) →
        b ∈ rates → ExchangeRates.matchesPair t f b = true → b.rate_date ≤ d →
        (∀ e ∈ rates, ExchangeRates.matchesPair t f e = true → e.rate_date ≤ d →
          e.rate_date ≤ b.rate_date ∧ (e.rate_date = b.rate_date → e = b)) →
        ExchangeRates.get_rate rates f t d = some (1 / b.rate))
    ∧ (f ≠ t →
        (∀ e ∈ rates, ExchangeRates.matchesPair f t e = true → ¬(e.rate_date ≤ d)) →
        (∀ e ∈ rates, ExchangeRates.matchesPair t f e = true → ¬(e.rate_date ≤ d)) →
        ExchangeRates.get_rate rates f t d = none
        ∧ ∀ bal : Rat, ExchangeRates.convertToBase rates bal f t d = none)
    ∧ ExchangeRates.get_rate [⟨"USD", "EUR", 9/10, 1⟩] "USD" "EUR" 3
        = some (9/10) := by
  have hexact_none : ∀ f' t',
      (∀ e ∈ rates, ExchangeRates.matchesPair f' t' e = true → e.rate_date ≠ d) →
      ExchangeRates.firstMatch rates f' t' d = none := by
    intro f' t' h
    rw [ExchangeRates.firstMatch, List.find?_eq_none]
    intro e he
    simp only [Bool.and_eq_true, beq_iff_eq, not_and]
    intro hm
    exact h e he hm
  refine ⟨?_, ?_, ?_, ?_, ?_, ?_⟩
  · unfold ExchangeRates.get_rate
    rw [if_pos rfl]
  · intro e hft he hm hd huniq
    unfold ExchangeRates.get_rate
    rw [if_neg hft]
    rw [show ExchangeRates.firstMatch rates f t d = some e from
      ExchangeRates.find?_unique rates _ e he (by simp [hm, hd]) ?_]
    intro b hb hpb
    rw [Bool.and_eq_true, beq_iff_eq] at hpb
    exact huniq b hb hpb.1 hpb.2
  · intro b hft hnoex hb hm hle hmax
    unfold ExchangeRates.get_rate
    rw [if_neg hft, hexact_none f t hnoex,
      ExchangeRates.bestOnOrBefore_eq_some rates f t d b hb hm hle hmax]
  · intro b hft hnoprior hb hm hle hmax
    unfold ExchangeRates.get_rate
    rw [if_neg hft, hexact_none f t (fun e he hm hd => hnoprior e he hm (le_of_eq hd)),
      (ExchangeRates.bestOnOrBefore_eq_none_iff rates f t d).mpr hnoprior,
      ExchangeRates.bestOnOrBefore_eq_some rates t f d b hb hm hle hmax]
  · intro hft hnof hnor
    have hnone : ExchangeRates.get_rate rates f t d = none := by
      unfold ExchangeRates.get_rate
      rw [if_neg hft, hexact_none f t (fun e he hm hd => hnof e he hm (le_of_eq hd)),
        (ExchangeRates.bestOnOrBefore_eq_none_iff rates f t d).mpr hnof,
        (ExchangeRates.bestOnOrBefore_eq_none_iff rates t f d).mpr hnor]
    refine ⟨hnone, ?_⟩
    intro bal
    unfold ExchangeRates.convertToBase ExchangeRates.service_get_rate
    rw [if_pos hft, hnone]
    norm_num
  · unfold ExchangeRates.get_rate
    rw [if_neg (by decide)]
    rw [show ExchangeRates.firstMatch [⟨"USD", "EUR", 9/10, 1⟩] "USD" "EUR" 3 = none by
      rw [ExchangeRates.firstMatch, List.find?_eq_none]
      intro e he
      rw [List.mem_singleton] at he
      subst he
      decide]
    rw [ExchangeRates.bestOnOrBefore_eq_some [⟨"USD", "EUR", 9/10, 1⟩] "USD" "EUR" 3
      ⟨"USD", "EUR", 9/10, 1⟩ (List.mem_singleton.mpr rfl) (by decide) (by decide)
      (fun e he hm hle => by
        rw [List.mem_singleton] at he
        subst he
        exact ⟨le_refl _, fun h => rfl⟩)]

/-- C6 witness: the fallback theorem applied at the concrete one-row table:
equal currencies give rate 1, and the day-3 USD→EUR lookup falls back to the
day-1 row. -/
theorem C6_rate_fallback_witness :
    ExchangeRates.get_rate [⟨"USD", "EUR", 9/10, 1⟩] "CHF" "CHF" 3 = some 1
    ∧ ExchangeRates.get_rate [⟨"USD", "EUR", 9/10, 1⟩] "USD" "EUR" 3
        = some (⟨"USD", "EUR", 9/10, 1⟩ : ExchangeRates.ExchangeRate).rate := by
  constructor
  · exact (C6_rate_fallback [⟨"USD", "EUR", 9/10, 1⟩] "CHF" "CHF" 3).1
  · exact (C6_rate_fallback [⟨"USD", "EUR", 9/10, 1⟩] "USD" "EUR" 3).2.2.1
      ⟨"USD", "EUR", 9/10, 1⟩ (by decide)
      (fun e he hm => by
        rw [List.mem_singleton] at he
        subst he
        decide)
      (List.mem_singleton.mpr rfl) (by decide) (by decide)
      (fun e he hm hle => by
        rw [List.mem_singleton] at he
        subst he
        exact ⟨le_refl _, fun h => rfl⟩)

namespace WealthHistory

/-- A Python `datetime.date`: year, month, day. -/
structure D where
  y : Nat
  m : Nat
  d : Nat
deriving DecidableEq, Repr

/-- Python date strict comparison `a < b` (lexicographic on year, month,
day). -/
def dlt (a b : D) : Prop :=
  a.y < b.y ∨ (a.y = b.y ∧ (a.m < b.m ∨ (a.m = b.m ∧ a.d < b.d)))

/-- Python date comparison `a <= b`. -/
def dle (a b : D) : Prop :=
  dlt a b ∨ a = b

instance (a b : D) : Decidable (dlt a b) := by
  unfold dlt
  exact inferInstance

instance (a b : D) : Decidable (dle a b) := by
  unfold dle
  exact inferInstance

/-- Python `calendar.isleap`. -/
def isLeap (y : Nat) : Bool :=
  y % 4 == 0 && (y % 100 != 0 || y % 400 == 0)

/-- `calendar.monthrange(year, month)[1]`: the last valid day of the
month. -/
def monthrange (y m : Nat) : Nat :=
  if m = 2 then (if isLeap y then 29 else 28)
  else if m = 4 ∨ m = 6 ∨ m = 9 ∨ m = 11 then 30 else 31

/-- `WealthHistoryView`: `target_day = min(reference_day, last_day_of_month);
target_date = date(year, month, target_day)`. -/
def targetDateFor (reference_day y m : Nat) : D :=
  ⟨y, m, min reference_day (monthrange y m)⟩

/-- The month key assigned to a daily point: the target date of the point's
calendar month. -/
def targetOf (reference_day : Nat) (d : D) : D :=
  targetDateFor reference_day d.y d.m

/-- Lookup in a Python dict modelled as an insertion-ordered association
list. -/
def lookupA (l : List (D × D × Rat)) (k : D) : Option (D × Rat) :=
  match l with
  | [] => none
  | (k', v) :: rest => if k' = k then some v else lookupA rest k

/-- In-place overwrite of an existing dict key. -/
def updateA (l : List (D × D × Rat)) (k : D) (v : D × Rat) : List (D × D × Rat) :=
  match l with
  | [] => []
  | (k', v') :: rest => if k' = k then (k', v) :: rest else (k', v') :: updateA rest k v

/-- One iteration of the monthly-aggregation loop of `WealthHistoryView`:
a month seen for the first time stores its point unconditionally; otherwise
the stored point is replaced when the new date is on or before the target
and either the stored date is after the target or the new date is closer
(`d <= target_date and (existing_date > target_date or d > existing_date)`). -/
def monthlyStep (reference_day : Nat) (acc : List (D × D × Rat)) (e : D × Rat) :
    List (D × D × Rat) :=
  let key := targetOf reference_day e.1
  match lookupA acc key with
  | none => acc ++ [(key, e)]
  | some (existing_date, _) =>
    if dle e.1 key ∧ (dlt key existing_date ∨ dlt existing_date e.1) then
      updateA acc key e
    else acc

/-- The `monthly_totals` dict built by folding the monthly-aggregation loop
over the daily totals in their insertion (chronological) order. -/
def monthly_totals (reference_day : Nat) (daily : List (D × Rat)) :
    List (D × D × Rat) :=
  daily.foldl (monthlyStep reference_day) []

/-- The per-month selection state transformer seen by one fixed month key. -/
def stepOpt (key : D) (cur : Option (D × Rat)) (e : D × Rat) : Option (D × Rat) :=
  match cur with
  | none => some e
  | some (existing_date, et) =>
    if dle e.1 key ∧ (dlt key existing_date ∨ dlt existing_date e.1) then some e
    else some (existing_date, et)

theorem not_dlt_iff (a b : D) : ¬ dlt a b ↔ dle b a := by
  obtain ⟨ya, ma, da⟩ := a
  obtain ⟨yb, mb, db⟩ := b
  simp only [dlt, dle, D.mk.injEq]
  omega

theorem not_dle_iff (a b : D) : ¬ dle a b ↔ dlt b a := by
  obtain ⟨ya, ma, da⟩ := a
  obtain ⟨yb, mb, db⟩ := b
  simp only [dlt, dle, D.mk.injEq]
  omega

theorem dle_refl (a : D) : dle a a := Or.inr rfl

theorem dle_trans (a b c : D) (h1 : dle a b) (h2 : dle b c) : dle a c := by
  obtain ⟨ya, ma, da⟩ := a
  obtain ⟨yb, mb, db⟩ := b
  obtain ⟨yc, mc, dc⟩ := c
  simp only [dlt, dle, D.mk.injEq] at h1 h2 ⊢
  omega

theorem dlt_dle (a b : D) (h : dlt a b) : dle a b := Or.inl h

end WealthHistory

namespace WealthHistory

theorem lookupA_append_of_none (l : List (D × D × Rat)) (k : D) (v : D × Rat)
    (h : lookupA l k = none) : lookupA (l ++ [(k, v)]) k = some v := by
  induction l with
  | nil => simp [lookupA]
  | cons p rest ih =>
    obtain ⟨k', v'⟩ := p
    rw [lookupA] at h
    by_cases hk : k' = k
    · rw [if_pos hk] at h
      cases h
    · rw [if_neg hk] at h
      rw [List.cons_append, lookupA, if_neg hk]
      exact ih h

theorem lookupA_append_ne (l : List (D × D × Rat)) (k t : D) (v : D × Rat)
    (hne : t ≠ k) : lookupA (l ++ [(t, v)]) k = lookupA l k := by
  induction l with
  | nil => simp [lookupA, hne]
  | cons p rest ih =>
    obtain ⟨k', v'⟩ := p
    rw [List.cons_append, lookupA, lookupA]
    by_cases hk : k' = k
    · rw [if_pos hk, if_pos hk]
    · rw [if_neg hk, if_neg hk]
      exact ih

theorem lookupA_updateA_self (l : List (D × D × Rat)) (k : D) (v w : D × Rat)
    (h : lookupA l k = some w) : lookupA (updateA l k v) k = some v := by
  induction l with
  | nil => cases h
  | cons p rest ih =>
    obtain ⟨k', v'⟩ := p
    rw [lookupA] at h
    rw [updateA]
    by_cases hk : k' = k
    · rw [if_pos hk, lookupA, if_pos hk]
    · rw [if_neg hk] at h
      rw [if_neg hk, lookupA, if_neg hk]
      exact ih h

theorem lookupA_updateA_ne (l : List (D × D × Rat)) (k t : D) (v : D × Rat)
    (hne : t ≠ k) : lookupA (updateA l t v) k = lookupA l k := by
  induction l with
  | nil => rfl
  | cons p rest ih =>
    obtain ⟨k', v'⟩ := p
    rw [updateA]
    by_cases ht : k' = t
    · rw [if_pos ht, lookupA, lookupA]
      subst ht
      rw [if_neg hne, if_neg hne]
    · rw [if_neg ht, lookupA, lookupA]
      by_cases hk : k' = k
      · rw [if_pos hk, if_pos hk]
      · rw [if_neg hk, if_neg hk]
        exact ih

theorem lookupA_monthlyStep (reference_day : Nat) (acc : List (D × D × Rat))
    (e : D × Rat) (k : D) :
    lookupA (monthlyStep reference_day acc e) k =
      if targetOf reference_day e.1 = k then stepOpt k (lookupA acc k) e
      else lookupA acc k := by
  by_cases hk : targetOf reference_day e.1 = k
  · subst hk
    rw [if_pos rfl]
    cases hcur : lookupA acc (targetOf reference_day e.1) with
    | none =>
      simp only [monthlyStep, hcur, stepOpt]
      exact lookupA_append_of_none acc _ e hcur
    | some w =>
      obtain ⟨ed, et⟩ := w
      simp only [monthlyStep, hcur, stepOpt]
      by_cases hcond : dle e.1 (targetOf reference_day e.1) ∧
          (dlt (targetOf reference_day e.1) ed ∨ dlt ed e.1)
      · rw [if_pos hcond, if_pos hcond]
        exact lookupA_updateA_self acc _ e _ hcur
      · rw [if_neg hcond, if_neg hcond, hcur]
  · rw [if_neg hk]
    cases hcur : lookupA acc (targetOf reference_day e.1) with
    | none =>
      simp only [monthlyStep, hcur]
      exact lookupA_append_ne acc k _ e hk
    | some w =>
      obtain ⟨ed, et⟩ := w
      simp only [monthlyStep, hcur]
      by_cases hcond : dle e.1 (targetOf reference_day e.1) ∧
          (dlt (targetOf reference_day e.1) ed ∨ dlt ed e.1)
      · rw [if_pos hcond]
        exact lookupA_updateA_ne acc k _ e hk
      · rw [if_neg hcond]

theorem lookupA_foldl (reference_day : Nat) (l : List (D × Rat)) (k : D) :
    ∀ acc : List (D × D × Rat),
      lookupA (l.foldl (monthlyStep reference_day) acc) k =
        (l.filter (fun e => targetOf reference_day e.1 = k)).foldl
          (stepOpt k) (lookupA acc k) := by
  induction l with
  | nil => intro acc; rfl
  | cons e l ih =>
    intro acc
    rw [List.foldl_cons, ih, List.filter_cons]
    by_cases hk : targetOf reference_day e.1 = k
    · rw [if_pos (by simpa using hk), List.foldl_cons,
        lookupA_monthlyStep, if_pos hk]
    · rw [if_neg (by simpa using hk), lookupA_monthlyStep, if_neg hk]

theorem stepOpt_foldMaster (key : D) (l : List (D × Rat)) :
    ∀ c : D × Rat, ∃ v,
      l.foldl (stepOpt key) (some c) = some v
      ∧ (v = c ∨ (v ∈ l ∧ dle v.1 key))
      ∧ (dle c.1 key → dle c.1 v.1 ∧ dle v.1 key)
      ∧ (∀ e ∈ l, dle e.1 key → dle e.1 v.1)
      ∧ ((∀ e ∈ l, ¬ dle e.1 key) → v = c)
      ∧ ((∃ e ∈ l, dle e.1 key) → dle v.1 key) := by
  induction l with
  | nil =>
    intro c
    exact ⟨c, rfl, Or.inl rfl, fun h => ⟨dle_refl _, h⟩, by simp, fun _ => rfl, by simp⟩
  | cons e l ih =>
    intro c
    rw [List.foldl_cons]
    by_cases hcond : dle e.1 key ∧ (dlt key c.1 ∨ dlt c.1 e.1)
    · have hstep : stepOpt key (some c) e = some e := by
        obtain ⟨cd, ct⟩ := c
        rw [stepOpt, if_pos hcond]
      rw [hstep]
      obtain ⟨v, hv, hmem, hmono, hmax, hnone, hsome⟩ := ih e
      have hev : dle e.1 v.1 ∧ dle v.1 key := hmono hcond.1
      refine ⟨v, hv, ?_, ?_, ?_, ?_, ?_⟩
      · rcases hmem with rfl | ⟨hvl, hvk⟩
        · exact Or.inr ⟨List.mem_cons_self .., hev.2⟩
        · exact Or.inr ⟨List.mem_cons_of_mem _ hvl, hvk⟩
      · intro hck
        have hce : dle c.1 e.1 := by
          rcases hcond.2 with h | h
          · exact absurd h ((not_dlt_iff key c.1).mpr hck)
          · exact dlt_dle _ _ h
        exact ⟨dle_trans _ _ _ hce hev.1, hev.2⟩
      · intro f hf hfk
        rcases List.mem_cons.mp hf with rfl | hf
        · exact hev.1
        · exact hmax f hf hfk
      · intro hall
        exact absurd hcond.1 (hall e (List.mem_cons_self ..))
      · intro _
        exact hev.2
    · have hstep : stepOpt key (some c) e = some c := by
        obtain ⟨cd, ct⟩ := c
        rw [stepOpt, if_neg hcond]
      rw [hstep]
      obtain ⟨v, hv, hmem, hmono, hmax, hnone, hsome⟩ := ih c
      have hek : dle e.1 key → dle e.1 v.1 := by
        intro hekey
        push_neg at hcond
        rcases hcond hekey with ⟨hnk, hnc⟩
        have hck : dle c.1 key := (not_dlt_iff key c.1).mp hnk
        have hec : dle e.1 c.1 := (not_dlt_iff c.1 e.1).mp hnc
        exact dle_trans _ _ _ hec (hmono hck).1
      refine ⟨v, hv, ?_, hmono, ?_, ?_, ?_⟩
      · rcases hmem with rfl | ⟨hvl, hvk⟩
        · exact Or.inl rfl
        · exact Or.inr ⟨List.mem_cons_of_mem _ hvl, hvk⟩
      · intro f hf hfk
        rcases List.mem_cons.mp hf with rfl | hf
        · exact hek hfk
        · exact hmax f hf hfk
      · intro hall
        exact hnone fun f hf => hall f (List.mem_cons_of_mem _ hf)
      · rintro ⟨f, hf, hfk⟩
        rcases List.mem_cons.mp hf with rfl | hf
        · push_neg at hcond
          rcases hcond hfk with ⟨hnk, _⟩
          exact (hmono ((not_dlt_iff key c.1).mp hnk)).2
        · exact hsome ⟨f, hf, hfk⟩

end WealthHistory

/-- C7 counterexample: with reference day 26, a 28-day month's target day is
`min(26, 28) = 26`, not 28 as the claim states; and with daily points on
Feb 26, 27 and 28 of 2023 the month stores the Feb 26 total, not the
Feb 28 total the claim's target would select. -/
theorem C7_counterexample :
    WealthHistory.targetDateFor 26 2023 2 = ⟨2023, 2, 26⟩
    ∧ WealthHistory.targetDateFor 26 2023 2 ≠ ⟨2023, 2, 28⟩
    ∧ WealthHistory.monthly_totals 26
        [(⟨2023, 2, 26⟩, 10), (⟨2023, 2, 27⟩, 20), (⟨2023, 2, 28⟩, 30)]
        = [(⟨2023, 2, 26⟩, ⟨2023, 2, 26⟩, 10)] := by
  refine ⟨rfl, by decide, rfl⟩

/-- C7 (amended): the monthly target day is the reference day-of-month
clamped to the month's last valid day by `min` — so it moves only when the
reference day exceeds the month length (reference 31 in 28-day February 2023
clamps to 28; reference 26 stays 26) — and for every month key: the month is
absent exactly when no daily point maps to it; when the month has a point
dated on or before the target, the stored value is such a point, closest to
the target (maximal among the on-or-before dates); and when all of the
month's points are dated after the target, the stored value is the month's
first point (dated after the target) rather than none. -/
theorem C7_monthly_aggregation (reference_day : Nat)
    (daily : List (WealthHistory.D × Rat)) (key : WealthHistory.D) :
    (∀ y m, (WealthHistory.targetDateFor reference_day y m).d
        = min reference_day (WealthHistory.monthrange y m))
    ∧ WealthHistory.targetDateFor 31 2023 2 = ⟨2023, 2, 28⟩
    ∧ WealthHistory.targetDateFor 26 2023 2 = ⟨2023, 2, 26⟩
    ∧ (WealthHistory.lookupA (WealthHistory.monthly_totals reference_day daily) key
        = none ↔
        daily.filter (fun e => WealthHistory.targetOf reference_day e.1 = key) = [])
    ∧ (∀ v, WealthHistory.lookupA (WealthHistory.monthly_totals reference_day daily)
          key = some v →
        v ∈ daily.filter (fun e => WealthHistory.targetOf reference_day e.1 = key)
        ∧ ((∃ e ∈ daily.filter
              (fun e => WealthHistory.targetOf reference_day e.1 = key),
              WealthHistory.dle e.1 key) →
            WealthHistory.dle v.1 key
            ∧ ∀ e ∈ daily.filter
                (fun e => WealthHistory.targetOf reference_day e.1 = key),
                WealthHistory.dle e.1 key → WealthHistory.dle e.1 v.1)
        ∧ ((∀ e ∈ daily.filter
              (fun e => WealthHistory.targetOf reference_day e.1 = key),
              ¬ WealthHistory.dle e.1 key) →
            some v = (daily.filter
              (fun e => WealthHistory.targetOf reference_day e.1 = key)).head?)) := by
  have hfold := WealthHistory.lookupA_foldl reference_day daily key []
  refine ⟨fun y m => rfl, rfl, rfl, ?_, ?_⟩
  · rw [WealthHistory.monthly_totals, hfold]
    cases hfil : daily.filter
        (fun e => WealthHistory.targetOf reference_day e.1 = key) with
    | nil => simp [WealthHistory.lookupA]
    | cons c rest =>
      simp only [WealthHistory.lookupA, List.foldl_cons]
      have hstep : WealthHistory.stepOpt key none c = some c := rfl
      rw [hstep]
      obtain ⟨v, hv, -⟩ := WealthHistory.stepOpt_foldMaster key rest c
      rw [hv]
      simp
  · intro v hv
    rw [WealthHistory.monthly_totals, hfold] at hv
    cases hfil : daily.filter
        (fun e => WealthHistory.targetOf reference_day e.1 = key) with
    | nil =>
      rw [hfil] at hv
      simp [WealthHistory.lookupA] at hv
    | cons c rest =>
      rw [hfil] at hv
      simp only [WealthHistory.lookupA, List.foldl_cons] at hv
      have hstep : WealthHistory.stepOpt key none c = some c := rfl
      rw [hstep] at hv
      obtain ⟨w, hw, hmem, hmono, hmax, hnone, hsome⟩ :=
        WealthHistory.stepOpt_foldMaster key rest c
      rw [hw] at hv
      obtain rfl : w = v := by injection hv
      refine ⟨?_, ?_, ?_⟩
      · rcases hmem with rfl | ⟨hvl, -⟩
        · exact List.mem_cons_self ..
        · exact List.mem_cons_of_mem _ hvl
      · rintro ⟨e0, he0, hk0⟩
        have hvk : WealthHistory.dle w.1 key := by
          rcases List.mem_cons.mp he0 with rfl | he0
          · exact (hmono hk0).2
          · exact hsome ⟨e0, he0, hk0⟩
        refine ⟨hvk, ?_⟩
        intro e he hek
        rcases List.mem_cons.mp he with rfl | he
        · exact (hmono hek).1
        · exact hmax e he hek
      · intro hall
        rw [hnone fun e he => hall e (List.mem_cons_of_mem _ he)]
        rfl

/-- C7 witness: the amended theorem at reference day 31 (February clamps to
28) and at a month key no daily point maps to (the month is absent). -/
theorem C7_monthly_aggregation_witness :
    WealthHistory.targetDateFor 31 2023 2 = ⟨2023, 2, 28⟩
    ∧ WealthHistory.lookupA
        (WealthHistory.monthly_totals 26 [(⟨2023, 2, 20⟩, 5)]) ⟨2024, 1, 26⟩
        = none :=
  ⟨(C7_monthly_aggregation 26 [(⟨2023, 2, 20⟩, 5)] ⟨2024, 1, 26⟩).2.1,
   (C7_monthly_aggregation 26 [(⟨2023, 2, 20⟩, 5)] ⟨2024, 1, 26⟩).2.2.2.1.mpr rfl⟩

namespace Sync

/-- A Python exception as seen by the handlers of `AccountSyncView.post`:
either a `ValueError` (caught by the dedicated `except ValueError` clause) or
any other exception (caught by `except Exception`), with its `str(e)` text. -/
inductive Exn where
  | valueError (msg : String)
  | other (msg : String)
deriving DecidableEq, Repr

/-- `str(e)`. -/
def Exn.str : Exn → String
  | .valueError m => m
  | .other m => m

/-- `repr(e)` (never empty). -/
def Exn.reprStr : Exn → String
  | .valueError m => "ValueError(" ++ m ++ ")"
  | .other m => "Exception(" ++ m ++ ")"

/-- The `str(e) or repr(e)` fallback used for `last_sync_error`. -/
def strOrRepr (e : Exn) : String :=
  if e.str = "" then e.reprStr else e.str

/-- `brokers/integrations/base.py` `AuthResult`. -/
structure AuthResult where
  success : Bool
  requires_2fa : Bool := false
  two_fa_type : Option String := none
  session_data : Option String := none
  error_message : String := ""
deriving DecidableEq, Repr

/-- `brokers/integrations/base.py` `BalanceInfo` (the fields the sync flow
reads). -/
structure BalanceInfo where
  balance : Rat
  currency : String
  balance_date : Int
deriving DecidableEq, Repr

/-- The fields of `portfolio/models.py` `FinancialAccount` that
`AccountSyncView.post` reads or writes. -/
structure Account where
  status : String
  last_sync_error : String
  pending_auth_state : Option (Option String × Option String)
  is_manual : Bool
  has_credentials : Bool
deriving DecidableEq, Repr

/-- Responses of `AccountSyncView.post`. -/
inductive Response where
  | success (message : String)
  | pendingAuth (two_fa_type : Option String)
  | badRequest (error : String)
  | serverError (error : String)
deriving DecidableEq, Repr

/-- The outcomes of the external calls one sync run makes, each an
`Except Exn` value standing for "returned normally" or "raised".  The
credential decryption and integration construction precede `authenticate`;
`_backfill_historical` wraps its whole body in `try/except` and returns 0 on
failure, so it never raises and is modelled by the count it returns. -/
structure Behavior where
  decrypt_credentials : Except Exn Unit
  construct : Except Exn Unit
  authenticate : Except Exn AuthResult
  get_balance : Except Exn BalanceInfo
  existing_snapshot : Bool
  create_snapshot : Except Exn Unit
  rate_lookup : Except Exn Rat
  supports_historical : Bool
  backfill_count : Nat

/-- `AccountSyncView._complete_sync`: fetch the balance, dedupe/persist the
snapshot, convert to the base currency, backfill, mark the account active,
then `close()`.  Any exception in the `try` body triggers the
`except: integration.close(); raise` clause, so `close()` runs exactly once
on both the success and the raising path; the raised exception is returned
as `.error` for the caller's handlers.  The third component counts `close()`
calls. -/
def complete_sync (base_currency : String) (b : Behavior) (account : Account) :
    Except Exn Response × Account × Nat :=
  match b.get_balance with
  | .error e => (.error e, account, 1)
  | .ok bal =>
    match (if b.existing_snapshot then Except.ok () else b.create_snapshot) with
    | .error e => (.error e, account, 1)
    | .ok () =>
      match (if bal.currency ≠ base_currency then b.rate_lookup else .ok 1) with
      | .error e => (.error e, account, 1)
      | .ok _rate =>
        let _backfilled := if b.supports_historical then b.backfill_count else 0
        let account' := { account with
          status := "active"
          last_sync_error := ""
          pending_auth_state := none }
        (.ok (.success (if b.existing_snapshot then
            "No change (snapshot already exists)" else "Sync completed")),
         account', 1)

/-- `AccountSyncView.post`: manual/credential guards, decrypt, construct the
integration, authenticate, then either store the pending-2FA state, report
the auth failure, or run `_complete_sync`.  `except ValueError` returns a
400 without touching the account; `except Exception` marks the account
`error` with `str(e) or repr(e)` and returns a 500 — neither handler calls
`close()`.  The third component counts `close()` calls. -/
def post (base_currency : String) (b : Behavior) (account : Account) :
    Response × Account × Nat :=
  if account.is_manual then
    (.badRequest "Cannot sync manual accounts", account, 0)
  else if ¬ account.has_credentials then
    (.badRequest "No credentials configured", account, 0)
  else
    let handle : Exn → Account → Nat → Response × Account × Nat := fun e acct n =>
      match e with
      | .valueError m => (.badRequest m, acct, n)
      | .other _ =>
        (.serverError ("Sync failed: " ++ strOrRepr e),
         { acct with status := "error", last_sync_error := strOrRepr e }, n)
    match b.decrypt_credentials with
    | .error e => handle e account 0
    | .ok () =>
      match b.construct with
      | .error e => handle e account 0
      | .ok () =>
        match b.authenticate with
        | .error e => handle e account 0
        | .ok auth =>
          if auth.success = false then
            if auth.requires_2fa then
              (.pendingAuth auth.two_fa_type,
               { account with
                  status := "pending_auth"
                  pending_auth_state := some (auth.two_fa_type, auth.session_data) },
               0)
            else
              (.badRequest auth.error_message,
               { account with
                  status := "error"
                  last_sync_error := auth.error_message }, 0)
          else
            match complete_sync base_currency b account with
            | (.ok resp, account', n) => (resp, account', n)
            | (.error e, account', n) => handle e account' n

end Sync

namespace Sync

/-- The account update performed at the end of a successful
`_complete_sync`. -/
def markActive (account : Account) : Account :=
  { account with status := "active", last_sync_error := "", pending_auth_state := none }

/-- The account update performed by `except Exception` in
`AccountSyncView.post`. -/
def markError (account : Account) (msg : String) : Account :=
  { account with status := "error", last_sync_error := msg }

theorem complete_sync_shape (base_currency : String) (b : Behavior)
    (account : Account) :
    (∃ e, complete_sync base_currency b account = (.error e, account, 1))
    ∨ (∃ r, complete_sync base_currency b account = (.ok r, markActive account, 1)) := by
  unfold complete_sync markActive
  cases hgb : b.get_balance with
  | error e => exact Or.inl ⟨e, rfl⟩
  | ok bal =>
    cases hcr : (if b.existing_snapshot then Except.ok () else b.create_snapshot) with
    | error e =>
      simp only [hcr]
      exact Or.inl ⟨e, rfl⟩
    | ok u =>
      cases u
      simp only [hcr]
      cases hr : (if bal.currency ≠ base_currency then b.rate_lookup else .ok 1) with
      | error e =>
        simp only [hr]
        exact Or.inl ⟨e, rfl⟩
      | ok r =>
        simp only [hr]
        exact Or.inr ⟨_, rfl⟩

theorem complete_sync_closes (base_currency : String) (b : Behavior)
    (account : Account) :
    (complete_sync base_currency b account).2.2 = 1 := by
  rcases complete_sync_shape base_currency b account with ⟨e, h⟩ | ⟨r, h⟩ <;> rw [h]

end Sync

/-- C8 counterexample: an exception raised by `authenticate()` — after the
broker integration has been constructed — is caught by the generic handler
of `AccountSyncView.post`, which marks the account `error` with the raw
message but never calls the integration's `close()`: the close count is 0,
refuting the claim that `close()` is still called for every uncaught
exception after construction. -/
theorem C8_counterexample :
    Sync.post "EUR"
      ⟨.ok (), .ok (), .error (.other "boom"), .ok ⟨100, "EUR", 0⟩, false,
       .ok (), .ok 1, false, 0⟩
      ⟨"active", "", none, false, true⟩ =
      (.serverError "Sync failed: boom",
       ⟨"error", "boom", none, false, true⟩, 0) := by
  rfl

/-- C8 (amended): for a syncable account (not manual, credentials present,
decryption and integration construction succeeding), (a) `close()` is called
exactly once whenever the flow reaches `_complete_sync`, on its success and
on its raising path alike; (b) a non-`ValueError` exception raised by
`authenticate()` marks the account `error` with the raw message but `close()`
is never called (close count 0); (c) a `ValueError` raised by
`authenticate()` yields a 400 response with the account untouched and no
`close()`; (d) a non-`ValueError` exception raised inside `_complete_sync`
(balance fetch, persistence, conversion) marks the account `error` with the
raw message and `close()` has run exactly once; (e) a `ValueError` raised
inside `_complete_sync` yields a 400 with the account untouched, `close()`
having run exactly once. -/
theorem C8_sync_error_handling (base_currency : String) (b : Sync.Behavior)
    (account : Sync.Account)
    (hm : account.is_manual = false) (hc : account.has_credentials = true)
    (hd : b.decrypt_credentials = .ok ()) (hcon : b.construct = .ok ()) :
    (Sync.complete_sync base_currency b account).2.2 = 1
    ∧ (∀ m, b.authenticate = .error (.other m) →
        Sync.post base_currency b account =
          (.serverError ("Sync failed: " ++ Sync.strOrRepr (.other m)),
           Sync.markError account (Sync.strOrRepr (.other m)), 0))
    ∧ (∀ m, b.authenticate = .error (.valueError m) →
        Sync.post base_currency b account = (.badRequest m, account, 0))
    ∧ (∀ auth m, b.authenticate = .ok auth → auth.success = true →
        (Sync.complete_sync base_currency b account).1 = .error (.other m) →
        Sync.post base_currency b account =
          (.serverError ("Sync failed: " ++ Sync.strOrRepr (.other m)),
           Sync.markError account (Sync.strOrRepr (.other m)), 1))
    ∧ (∀ auth m, b.authenticate = .ok auth → auth.success = true →
        (Sync.complete_sync base_currency b account).1 = .error (.valueError m) →
        Sync.post base_currency b account = (.badRequest m, account, 1)) := by
  refine ⟨Sync.complete_sync_closes base_currency b account, ?_, ?_, ?_, ?_⟩
  · intro m hauth
    simp only [Sync.post, Sync.markError, hm, hc, hd, hcon, hauth,
      Bool.false_eq_true, if_false, Bool.not_eq_true, not_false_eq_true, not_true, if_true]
  · intro m hauth
    simp only [Sync.post, hm, hc, hd, hcon, hauth, Bool.false_eq_true, if_false,
      Bool.not_eq_true, not_false_eq_true, not_true, if_true]
  · intro auth m hauth hsucc hcompl
    rcases Sync.complete_sync_shape base_currency b account with ⟨e, hsh⟩ | ⟨r, hsh⟩
    · have he : e = .other m := by
        rw [hsh] at hcompl
        exact Except.error.inj hcompl
      subst he
      simp only [Sync.post, Sync.markError, hm, hc, hd, hcon, hauth, hsucc, hsh,
        Bool.false_eq_true, if_false, Bool.not_eq_true, not_false_eq_true, not_true, if_true,
        Bool.true_eq_false]
    · rw [hsh] at hcompl
      cases hcompl
  · intro auth m hauth hsucc hcompl
    rcases Sync.complete_sync_shape base_currency b account with ⟨e, hsh⟩ | ⟨r, hsh⟩
    · have he : e = .valueError m := by
        rw [hsh] at hcompl
        exact Except.error.inj hcompl
      subst he
      simp only [Sync.post, hm, hc, hd, hcon, hauth, hsucc, hsh,
        Bool.false_eq_true, if_false, Bool.not_eq_true, not_false_eq_true, not_true, if_true,
        Bool.true_eq_false]
    · rw [hsh] at hcompl
      cases hcompl

/-- C8 witness: the amended theorem at a concrete account and a behavior
whose balance fetch raises: the account is marked `error` with the raw
message and `close()` has run exactly once. -/
theorem C8_sync_error_handling_witness :
    Sync.post "EUR"
      ⟨.ok (), .ok (), .ok ⟨true, false, none, none, ""⟩,
       .error (.other "fetch failed"), false, .ok (), .ok 1, false, 0⟩
      ⟨"active", "", none, false, true⟩ =
      (.serverError "Sync failed: fetch failed",
       ⟨"error", "fetch failed", none, false, true⟩, 1) := by
  have h := (C8_sync_error_handling "EUR"
    ⟨.ok (), .ok (), .ok ⟨true, false, none, none, ""⟩,
     .error (.other "fetch failed"), false, .ok (), .ok 1, false, 0⟩
    ⟨"active", "", none, false, true⟩ rfl rfl rfl rfl).2.2.2.1
    ⟨true, false, none, none, ""⟩ "fetch failed" rfl rfl rfl
  rw [h]
  rfl

namespace FinTS

/-- `fints_integration.py` `authenticate`: `max_attempts = 60  # 5 min at 5s
intervals`. -/
def AUTH_POLL_MAX_ATTEMPTS : Nat := 60

/-- `fints_integration.py` `authenticate`: `sleep(5)` between decoupled
polls. -/
def AUTH_POLL_INTERVAL_SECONDS : Nat := 5

/-- `fints_integration.py` `complete_2fa`: `max_attempts = 120  # 2 minutes
timeout`. -/
def COMPLETE_POLL_MAX_ATTEMPTS : Nat := 120

/-- `fints_integration.py` `complete_2fa`: `sleep(1)` between decoupled
polls. -/
def COMPLETE_POLL_INTERVAL_SECONDS : Nat := 1

/-- The decoupled-approval polling loop shared by both sites:
`for attempt in range(max_attempts): result = send_tan(tan_resp, None);
if not NeedTANResponse: return AuthResult(success=True); sleep(interval)`,
falling through to a timeout `AuthResult` when the budget is exhausted.
`poll i` abstracts the i-th `send_tan` re-issue of the same protocol poll
call: `true` when the bank reports the approval as complete.  Returns the
`AuthResult` together with the number of poll attempts issued and the total
seconds slept. -/
def pollLoop (poll : Nat → Bool) (interval : Nat) (timeoutMsg : String) :
    Nat → Nat → Sync.AuthResult × Nat × Nat
  | _attempt, 0 => (⟨false, false, none, none, timeoutMsg⟩, 0, 0)
  | attempt, budget + 1 =>
    if poll attempt then (⟨true, false, none, none, ""⟩, 1, 0)
    else
      ((pollLoop poll interval timeoutMsg (attempt + 1) budget).1,
       (pollLoop poll interval timeoutMsg (attempt + 1) budget).2.1 + 1,
       (pollLoop poll interval timeoutMsg (attempt + 1) budget).2.2 + interval)

/-- The decoupled branch of `FinTSIntegration.authenticate`: up to 60 polls
5 seconds apart, timeout message after 5 minutes. -/
def authenticate_decoupled_poll (poll : Nat → Bool) : Sync.AuthResult × Nat × Nat :=
  pollLoop poll AUTH_POLL_INTERVAL_SECONDS
    "2FA approval timeout (5 min). Please approve in your banking app and retry."
    0 AUTH_POLL_MAX_ATTEMPTS

/-- The decoupled branch of `FinTSIntegration.complete_2fa`: up to 120 polls
1 second apart, timeout message after 2 minutes. -/
def complete_2fa_decoupled_poll (poll : Nat → Bool) : Sync.AuthResult × Nat × Nat :=
  pollLoop poll COMPLETE_POLL_INTERVAL_SECONDS
    "2FA approval timeout. Please approve in your banking app."
    0 COMPLETE_POLL_MAX_ATTEMPTS

theorem pollLoop_attempts_le (poll : Nat → Bool) (interval : Nat) (msg : String) :
    ∀ budget attempt, (pollLoop poll interval msg attempt budget).2.1 ≤ budget := by
  intro budget
  induction budget with
  | zero => intro attempt; exact Nat.le_refl 0
  | succ n ih =>
    intro attempt
    rw [pollLoop]
    by_cases h : poll attempt
    · rw [if_pos h]
      show 1 ≤ n + 1
      omega
    · rw [if_neg h]
      have := ih (attempt + 1)
      show (pollLoop poll interval msg (attempt + 1) n).2.1 + 1 ≤ n + 1
      omega

theorem pollLoop_success_iff (poll : Nat → Bool) (interval : Nat) (msg : String) :
    ∀ budget attempt, (pollLoop poll interval msg attempt budget).1.success = true ↔
      ∃ j, j < budget ∧ poll (attempt + j) = true := by
  intro budget
  induction budget with
  | zero =>
    intro attempt
    simp [pollLoop]
  | succ n ih =>
    intro attempt
    rw [pollLoop]
    by_cases h : poll attempt
    · rw [if_pos h]
      simp only [show (⟨true, false, none, none, ""⟩ : Sync.AuthResult).success = true
        from rfl, true_iff]
      exact ⟨0, by omega, by simpa using h⟩
    · rw [if_neg h]
      show (pollLoop poll interval msg (attempt + 1) n).1.success = true ↔ _
      rw [ih (attempt + 1)]
      constructor
      · rintro ⟨j, hj, hpj⟩
        refine ⟨j + 1, by omega, ?_⟩
        rw [show attempt + (j + 1) = attempt + 1 + j by omega]
        exact hpj
      · rintro ⟨j, hj, hpj⟩
        cases j with
        | zero =>
          rw [Nat.add_zero] at hpj
          exact absurd hpj h
        | succ j' =>
          refine ⟨j', by omega, ?_⟩
          rw [show attempt + 1 + j' = attempt + (j' + 1) by omega]
          exact hpj

theorem pollLoop_timeout (poll : Nat → Bool) (interval : Nat) (msg : String) :
    ∀ budget attempt, (∀ j, j < budget → poll (attempt + j) = false) →
      pollLoop poll interval msg attempt budget =
        (⟨false, false, none, none, msg⟩, budget, budget * interval) := by
  intro budget
  induction budget with
  | zero =>
    intro attempt _
    rw [pollLoop, Nat.zero_mul]
  | succ n ih =>
    intro attempt hall
    rw [pollLoop]
    have h0 : poll attempt = false := by simpa using hall 0 (by omega)
    rw [if_neg (by simp [h0])]
    have hrest : ∀ j, j < n → poll (attempt + 1 + j) = false := by
      intro j hj
      rw [show attempt + 1 + j = attempt + (j + 1) by omega]
      exact hall (j + 1) (by omega)
    rw [ih (attempt + 1) hrest]
    show ((⟨false, false, none, none, msg⟩ : Sync.AuthResult), n + 1,
        n * interval + interval)
      = ((⟨false, false, none, none, msg⟩ : Sync.AuthResult), n + 1,
        (n + 1) * interval)
    rw [Nat.succ_mul]

end FinTS

/-- C9 counterexample: the challenge-completion retry loop of
`complete_2fa` sleeps 1 second between polls (`sleep(1)`, 120 attempts ≈ 2
minutes), not the fixed 5 seconds the claim asserts for every
decoupled-approval loop: with no approval ever arriving it sleeps 120
seconds in total, where a 5-second interval over its 120 attempts would
sleep 600. -/
theorem C9_counterexample :
    FinTS.COMPLETE_POLL_INTERVAL_SECONDS = 1
    ∧ FinTS.COMPLETE_POLL_INTERVAL_SECONDS ≠ 5
    ∧ (FinTS.complete_2fa_decoupled_poll (fun _ => false)).2.2 = 120
    ∧ (FinTS.complete_2fa_decoupled_poll (fun _ => false)).2.2 ≠ 5 * 120 := by
  have h := FinTS.pollLoop_timeout (fun _ => false)
    FinTS.COMPLETE_POLL_INTERVAL_SECONDS
    "2FA approval timeout. Please approve in your banking app."
    FinTS.COMPLETE_POLL_MAX_ATTEMPTS 0 (fun j _ => rfl)
  refine ⟨rfl, by decide, ?_, ?_⟩
  · rw [FinTS.complete_2fa_decoupled_poll, h]
    rfl
  · rw [FinTS.complete_2fa_decoupled_poll, h]
    decide

/-- C9 (amended): both decoupled-approval polling loops re-issue the same
underlying protocol poll call once per iteration and are bounded — at most
60 attempts at 5-second intervals (≈ 5 minutes) during initial authenticate,
and at most 120 attempts at 1-second intervals (≈ 2 minutes) during
challenge-completion retry.  Each loop terminates with a success result
exactly when some in-budget poll reports approval, and otherwise exhausts
its budget and returns a timeout failure result — a value, not an unbounded
retry or an exception. -/
theorem C9_decoupled_polling_bounded (poll : Nat → Bool) :
    (FinTS.authenticate_decoupled_poll poll).2.1 ≤ 60
    ∧ (FinTS.complete_2fa_decoupled_poll poll).2.1 ≤ 120
    ∧ ((FinTS.authenticate_decoupled_poll poll).1.success = true ↔
        ∃ j, j < 60 ∧ poll j = true)
    ∧ ((FinTS.complete_2fa_decoupled_poll poll).1.success = true ↔
        ∃ j, j < 120 ∧ poll j = true)
    ∧ ((∀ j, j < 60 → poll j = false) →
        FinTS.authenticate_decoupled_poll poll =
          (⟨false, false, none, none,
            "2FA approval timeout (5 min). Please approve in your banking app and retry."⟩,
           60, 60 * 5))
    ∧ ((∀ j, j < 120 → poll j = false) →
        FinTS.complete_2fa_decoupled_poll poll =
          (⟨false, false, none, none,
            "2FA approval timeout. Please approve in your banking app."⟩,
           120, 120 * 1)) := by
  refine ⟨FinTS.pollLoop_attempts_le poll _ _ 60 0,
    FinTS.pollLoop_attempts_le poll _ _ 120 0, ?_, ?_, ?_, ?_⟩
  · rw [FinTS.authenticate_decoupled_poll,
      FinTS.pollLoop_success_iff poll _ _ FinTS.AUTH_POLL_MAX_ATTEMPTS 0]
    simp only [Nat.zero_add]
    exact Iff.rfl
  · rw [FinTS.complete_2fa_decoupled_poll,
      FinTS.pollLoop_success_iff poll _ _ FinTS.COMPLETE_POLL_MAX_ATTEMPTS 0]
    simp only [Nat.zero_add]
    exact Iff.rfl
  · intro hall
    rw [FinTS.authenticate_decoupled_poll,
      FinTS.pollLoop_timeout poll _ _ FinTS.AUTH_POLL_MAX_ATTEMPTS 0
        (fun j hj => by simpa using hall j hj)]
    rfl
  · intro hall
    rw [FinTS.complete_2fa_decoupled_poll,
      FinTS.pollLoop_timeout poll _ _ FinTS.COMPLETE_POLL_MAX_ATTEMPTS 0
        (fun j hj => by simpa using hall j hj)]
    rfl

/-- C9 witness: the amended theorem at a poll oracle approving on the third
attempt (both loops succeed) and at the never-approving oracle (the
authenticate loop exhausts its 60 polls having slept 300 seconds). -/
theorem C9_decoupled_polling_bounded_witness :
    (FinTS.authenticate_decoupled_poll (fun i => i == 2)).1.success = true
    ∧ FinTS.authenticate_decoupled_poll (fun _ => false) =
        (⟨false, false, none, none,
          "2FA approval timeout (5 min). Please approve in your banking app and retry."⟩,
         60, 60 * 5) := by
  constructor
  · exact (C9_decoupled_polling_bounded (fun i => i == 2)).2.2.1.mpr
      ⟨2, by omega, by decide⟩
  · exact (C9_decoupled_polling_bounded (fun _ => false)).2.2.2.2.1
      (fun j _ => rfl)
